import Mathlib

/-!
# Verification of the prism event-aggregation and reporting pipeline

Shallow embedding of the core of the `prism` repository (a wrapper around
`go test -json`): the event aggregator (`processEvent` in
`internal` / `runTests`), the run orchestrator's exit-code policy
(`runTests`), and the reporter (`displayResults`, `displayPackageBlock`,
`generateTestRows` in `internal/types.go`).

Machine strings stay strings, Go `time.Duration` values are modelled as an
opaque `Nat` carried through unchanged (no claim depends on duration
arithmetic), Go maps keyed by strings are modelled as association lists in
insertion order, and the cosmetic lipgloss styling (explicitly out of scope
in the specification) is erased: render output is modelled as structured
blocks and rows.
-/

namespace Prism

/-! ## Status constants (`internal/types.go`) -/

def StatusRun : String := "run"

def StatusPass : String := "pass"

def StatusFail : String := "fail"

def StatusSkip : String := "skip"

def StatusOutput : String := "output"

def StatusRunning : String := "running"

/-! ## String helpers modelling the Go standard library -/

/-- Go `unicode.IsSpace`: the Unicode White_Space code points. -/
def goIsSpace (c : Char) : Bool :=
  c = ' ' || c = '\t' || c = '\n' || c = Char.ofNat 0x0B || c = Char.ofNat 0x0C ||
  c = '\r' || c = Char.ofNat 0x85 || c = Char.ofNat 0xA0 || c = Char.ofNat 0x1680 ||
  (0x2000 ≤ c.toNat && c.toNat ≤ 0x200A) || c = Char.ofNat 0x2028 || c = Char.ofNat 0x2029 ||
  c = Char.ofNat 0x202F || c = Char.ofNat 0x205F || c = Char.ofNat 0x3000

/-- Go `strings.TrimSpace`: drop leading and trailing white space. -/
def trimSpace (s : String) : String :=
  String.mk (((s.toList.dropWhile goIsSpace).reverse.dropWhile goIsSpace).reverse)

/-- Go `strings.TrimPrefix(name, "Test")`: remove one leading "Test" if present. -/
def stripTest (s : String) : String :=
  match s.toList with
  | 'T' :: 'e' :: 's' :: 't' :: rest => String.mk rest
  | _ => s

/-! ## Data model (`internal/types.go`) -/

/-- `TestEvent`: one parsed line of the `go test -json` stream.
`elapsed` models `time.Duration(Elapsed * float64(time.Second))` as an opaque
duration value; the `Time` field is never read by the program and is omitted. -/
structure TestEvent where
  action : String
  pkg : String
  test : String
  output : String
  elapsed : Nat
deriving DecidableEq, Repr

/-- `TestResult`: the aggregated state of one test. -/
structure TestResult where
  name : String
  pkg : String
  status : String
  duration : Nat
  output : List String
deriving DecidableEq, Repr

/-- The aggregator's shared state: the Go map `testMap` (modelled as an
association list in insertion order) together with the `TestSummary`
counters mutated by `processEvent`. -/
structure AggState where
  testMap : List (String × TestResult)
  passed : Nat
  failed : Nat
  skipped : Nat
  total : Nat
deriving DecidableEq, Repr

def initialState : AggState := { testMap := [], passed := 0, failed := 0, skipped := 0, total := 0 }

/-- The map key used by `processEvent`: `event.Package + "/" + event.Test`. -/
def eventKey (e : TestEvent) : String := e.pkg ++ "/" ++ e.test

/-- Lookup in a Go map modelled as an association list. -/
def lookupA {β : Type} : List (String × β) → String → Option β
  | [], _ => none
  | (k', v) :: rest, k => if k' = k then some v else lookupA rest k

/-- Store into a Go map modelled as an association list: replace in place,
or append a new binding at the end (first-seen insertion order). -/
def updateA {β : Type} : List (String × β) → String → β → List (String × β)
  | [], k, v => [(k, v)]
  | (k', v') :: rest, k, v =>
      if k' = k then (k, v) :: rest else (k', v') :: updateA rest k v

/-- The `TestResult` created by `processEvent` on the first event for a key. -/
def freshResult (e : TestEvent) : TestResult :=
  { name := e.test, pkg := e.pkg, status := StatusRunning, duration := 0, output := [] }

/-- The `switch event.Action` body of `processEvent`: how a single event
mutates the test it refers to. -/
def applyAction (e : TestEvent) (r : TestResult) : TestResult :=
  if e.action = StatusOutput then
    if trimSpace e.output ≠ "" then { r with output := r.output ++ [trimSpace e.output] } else r
  else if e.action = StatusPass ∨ e.action = StatusFail ∨ e.action = StatusSkip then
    { r with status := e.action, duration := e.elapsed }
  else r

/-- `processEvent` from the aggregator: discard scope-level events
(empty `Test`), find-or-create the `TestResult` for the key (incrementing
`Total` on create), apply the action, and bump the run counter matching a
terminal action. -/
def processEvent (e : TestEvent) (s : AggState) : AggState :=
  if e.test = "" then s
  else
    let r := (lookupA s.testMap (eventKey e)).getD (freshResult e)
    { testMap := updateA s.testMap (eventKey e) (applyAction e r)
      total := if (lookupA s.testMap (eventKey e)).isSome then s.total else s.total + 1
      passed := if e.action = StatusPass then s.passed + 1 else s.passed
      failed := if e.action = StatusFail then s.failed + 1 else s.failed
      skipped := if e.action = StatusSkip then s.skipped + 1 else s.skipped }

/-- Aggregate a whole structured-event stream, in arrival order. -/
def runAgg (es : List TestEvent) : AggState :=
  es.foldl (fun s e => processEvent e s) initialState

/-- The output lines currently recorded for a key (empty if the key is absent). -/
def outputsAt (s : AggState) (k : String) : List String :=
  ((lookupA s.testMap k).map TestResult.output).getD []

/-! ## Run orchestrator (`runTests`): exit-code policy -/

/-- Result of `cmd.Wait()`: `nil` (exit code 0), an `*exec.ExitError`
carrying a non-zero exit code, or some other execution error. -/
inductive WaitResult where
  | waitOk : WaitResult
  | waitExit : Int → WaitResult
  | waitOther : WaitResult
deriving DecidableEq, Repr

/-- The observable outcome of launching the external command: one of the
three early failures, or a completed launch delivering a decoded event
stream plus the `Wait` result. -/
inductive RunOutcome where
  | stdoutPipeFail : RunOutcome
  | stderrPipeFail : RunOutcome
  | startFail : RunOutcome
  | completed : List TestEvent → WaitResult → RunOutcome
deriving DecidableEq, Repr

/-- `runTests` control flow: pipe/start failures return an error before any
aggregation is surfaced; after completion the aggregated summary is returned
for exit code 0 (`Wait` = nil) and for the `go test` "tests failed"
convention exit code 1; every other outcome discards the summary and
returns an error. -/
def runTests (o : RunOutcome) : Except String AggState :=
  match o with
  | .stdoutPipeFail => .error "failed to create stdout pipe"
  | .stderrPipeFail => .error "failed to create stderr pipe"
  | .startFail => .error "failed to start command"
  | .completed es w =>
      match w with
      | .waitOk => .ok (runAgg es)
      | .waitExit code =>
          if code = 1 then .ok (runAgg es)
          else .error "command exited with non-zero status"
      | .waitOther => .error "command execution failed"

/-! ## Reporter (`displayResults` in `internal/types.go`) -/

/-- `PackageResults`: the per-scope aggregate derived while rendering. -/
structure PackageResults where
  name : String
  tests : List TestResult
  status : String
  total : Nat
  passed : Nat
  failed : Nat
  skipped : Nat
  duration : Nat
deriving DecidableEq, Repr

/-- The `PackageResults` created on first sight of a package name
(`Status: StatusPass` — "assume pass until a failure"). -/
def freshPackage (pkg : String) : PackageResults :=
  { name := pkg, tests := [], status := StatusPass
    total := 0, passed := 0, failed := 0, skipped := 0, duration := 0 }

/-- One iteration of the grouping loop in `displayResults`: append the test,
bump `Total`/`Duration`, then the `switch testResult.Status` body updating
the per-scope counters and derived status. -/
def addToPackage (p : PackageResults) (t : TestResult) : PackageResults :=
  let q : PackageResults :=
    { p with tests := p.tests ++ [t], total := p.total + 1, duration := p.duration + t.duration }
  if t.status = StatusPass then { q with passed := q.passed + 1 }
  else if t.status = StatusFail then { q with failed := q.failed + 1, status := StatusFail }
  else if t.status = StatusSkip then
    if q.status = StatusPass ∧ q.skipped + 1 = q.total then
      { q with skipped := q.skipped + 1, status := StatusSkip }
    else { q with skipped := q.skipped + 1 }
  else q

/-- Find-or-create step of the grouping loop, on the `groupedByPackage` map. -/
def groupStep (m : List (String × PackageResults)) (t : TestResult) :
    List (String × PackageResults) :=
  updateA m t.pkg (addToPackage ((lookupA m t.pkg).getD (freshPackage t.pkg)) t)

/-- The grouping pass of `displayResults`: fold the flat result sequence
into the `groupedByPackage` map. -/
def groupByPackage (results : List TestResult) : List (String × PackageResults) :=
  results.foldl groupStep []

/-- A render block of `displayResults`: one group block per package, plus
the overall summary block. Styling/layout is cosmetic and erased. -/
inductive Block where
  | group : String → Block
  | overall : Block
deriving DecidableEq, Repr

/-- The block sequence emitted by `displayResults`: the package blocks in
lexicographically sorted name order (`sort.Strings`), followed by the
overall summary block (appended unconditionally). -/
def displayBlocks (results : List TestResult) : List Block :=
  (List.insertionSort (fun a b : String => a ≤ b)
      ((groupByPackage results).map Prod.fst)).map Block.group ++ [Block.overall]

/-- The `statusOrder` map literal in `displayPackageBlock`; a missing key
yields the Go zero value 0. -/
def statusOrder (s : String) : Nat :=
  if s = StatusFail then 3
  else if s = StatusSkip then 2
  else if s = StatusPass then 1
  else if s = StatusRunning then 0
  else 0

/-- The `sort.Slice` comparator in `displayPackageBlock`: compare status
order first, then the display names with their "Test" prefix stripped. -/
def testLess (a b : TestResult) : Bool :=
  if statusOrder a.status ≠ statusOrder b.status then
    decide (statusOrder a.status < statusOrder b.status)
  else
    decide (stripTest a.name < stripTest b.name)

/-- The sort performed on a package's tests: some permutation ordered by
`testLess` (``sort.Slice`` guarantees exactly that its output is sorted
with respect to the comparator). -/
def sortTests (ts : List TestResult) : List TestResult :=
  List.insertionSort (fun a b => testLess b a = false) ts

/-- One row of the render table built by `generateTestRows`; the icon and
upper-casing are cosmetic functions of the status and are erased. -/
inductive Row where
  | testRow : String → String → Nat → Row
  | outputRow : String → Row
deriving DecidableEq, Repr

/-- The rows `generateTestRows` emits for a single test: the test row, then
— only for Failed tests with output — one output row per line whose
`TrimSpace` is non-empty. -/
def rowsFor (r : TestResult) : List Row :=
  Row.testRow r.status (stripTest r.name) r.duration ::
    (if r.status = StatusFail ∧ 0 < r.output.length then
      (r.output.filter (fun l => decide (trimSpace l ≠ ""))).map Row.outputRow
    else [])

/-- `generateTestRows` over a package's test list. -/
def generateTestRows (ts : List TestResult) : List Row :=
  ts.flatMap rowsFor

/-! ## Derived notions used to state the claims -/

/-- An event that sets a terminal status for an individual test. -/
def isTerminalEvent (e : TestEvent) : Bool :=
  decide (e.test ≠ "") &&
    (decide (e.action = StatusPass) || decide (e.action = StatusFail) ||
      decide (e.action = StatusSkip))

/-- The keys of the individual-test events in a stream, in arrival order. -/
def keysList (es : List TestEvent) : List String :=
  (es.filter (fun e => decide (e.test ≠ ""))).map eventKey

/-- An `output` event addressed to the given key. -/
def isOutputFor (k : String) (e : TestEvent) : Bool :=
  decide (e.test ≠ "") && decide (eventKey e = k) && decide (e.action = StatusOutput)

/-- The output lines the aggregator is expected to record for a key:
the trimmed `Output` texts of that key's `output` events, in arrival
order, dropping lines that are empty after trimming. -/
def outSpec (k : String) (es : List TestEvent) : List String :=
  ((es.filter (isOutputFor k)).map (fun e => trimSpace e.output)).filter
    (fun l => decide (l ≠ ""))

/-- Whether the first test of a sequence is a skipped test. -/
def headIsSkip (ts : List TestResult) : Bool :=
  match ts with
  | [] => false
  | t :: _ => decide (t.status = StatusSkip)

/-- `anyFail ts`: some test in `ts` has status Failed. -/
def anyFail (ts : List TestResult) : Bool :=
  ts.any (fun t => decide (t.status = StatusFail))

/-- The action strings `processEvent` reacts to. -/
def knownActions : List String :=
  [StatusRun, StatusPass, StatusFail, StatusSkip, StatusOutput]

/-- The per-scope aggregate the grouping fold associates to a key, given the
state the key had before the fold: `none` only when the key was absent and
no test of that scope occurs. -/
def contAgg (p? : Option PackageResults) (k : String) (fs : List TestResult) :
    Option PackageResults :=
  match p?, fs with
  | none, [] => none
  | _, _ => some (fs.foldl addToPackage (p?.getD (freshPackage k)))

/-! ## Concrete fixtures used by witnesses and counterexamples -/

/-- A skipped test named TestA in scope `p`. -/
def tSkipA : TestResult :=
  { name := "TestA", pkg := "p", status := StatusSkip, duration := 0, output := [] }

/-- A passed test named TestB in scope `p`. -/
def tPassB : TestResult :=
  { name := "TestB", pkg := "p", status := StatusPass, duration := 0, output := [] }

/-- A scope where a skipped test precedes a passed test in the flat sequence. -/
def rsMixed : List TestResult := [tSkipA, tPassB]

/-- The `PackageResults` value the grouping fold derives from `rsMixed`. -/
def pMixed : PackageResults :=
  { name := "p", tests := [tSkipA, tPassB], status := StatusSkip
    total := 2, passed := 1, failed := 0, skipped := 1, duration := 0 }

/-- A terminal `pass` event for test A of scope `p`. -/
def evPassA : TestEvent :=
  { action := StatusPass, pkg := "p", test := "A", output := "", elapsed := 0 }

/-- A stream delivering the same terminal event twice for one key. -/
def esDupTerminal : List TestEvent := [evPassA, evPassA]

/-- A well-formed stream: at most one terminal event per key. -/
def esWellFormed : List TestEvent :=
  [ { action := StatusRun, pkg := "p", test := "A", output := "", elapsed := 0 },
    { action := StatusPass, pkg := "p", test := "A", output := "", elapsed := 0 },
    { action := StatusSkip, pkg := "p", test := "B", output := "", elapsed := 0 } ]

/-- Scope `p`, test `a/b`: its key string is `p/a/b`. -/
def evSlashOne : TestEvent :=
  { action := StatusRun, pkg := "p", test := "a/b", output := "", elapsed := 0 }

/-- Scope `p/a`, test `b`: a different pair with the same key string `p/a/b`. -/
def evSlashTwo : TestEvent :=
  { action := StatusRun, pkg := "p/a", test := "b", output := "", elapsed := 0 }

/-- A failed test named TestB in scope `p`. -/
def tFailB : TestResult :=
  { name := "TestB", pkg := "p", status := StatusFail, duration := 0, output := [] }

/-- A passed test named TestA in scope `p`. -/
def tPassA : TestResult :=
  { name := "TestA", pkg := "p", status := StatusPass, duration := 0, output := [] }

/-- A single passed test, making a single-scope run. -/
def rsSingleScope : List TestResult := [tPassA]

/-- An `output` event whose text carries surrounding white space. -/
def evOutputPadded : TestEvent :=
  { action := StatusOutput, pkg := "p", test := "T", output := " boom ", elapsed := 0 }

/-- A failed test whose only output line is a `go test` framework delimiter. -/
def tFailDelim : TestResult :=
  { name := "TestX", pkg := "p", status := StatusFail, duration := 0
    output := ["--- FAIL: TestX (0.00s)"] }

/-- An event whose action is none of run/pass/fail/skip/output. -/
def evBogus : TestEvent :=
  { action := "bogus", pkg := "p", test := "T", output := "", elapsed := 0 }

/-- A `run` event for test T of scope `p`. -/
def evRunT : TestEvent :=
  { action := StatusRun, pkg := "p", test := "T", output := "", elapsed := 0 }

/-- An `output` event for test T of scope `p`. -/
def evOutT : TestEvent :=
  { action := StatusOutput, pkg := "p", test := "T", output := "boom", elapsed := 0 }

/-! ## Association-list lemmas -/

theorem lookupA_updateA_self {β : Type} (m : List (String × β)) (k : String) (v : β) :
    lookupA (updateA m k v) k = some v := by
  induction m with
  | nil => simp [updateA, lookupA]
  | cons hd tl ih =>
      obtain ⟨k', v'⟩ := hd
      by_cases h : k' = k <;> simp [updateA, lookupA, h, ih]

theorem lookupA_updateA_ne {β : Type} (m : List (String × β)) (k k' : String) (v : β)
    (h : k' ≠ k) : lookupA (updateA m k v) k' = lookupA m k' := by
  induction m with
  | nil =>
      have hne : ¬k = k' := fun hh => h hh.symm
      simp [updateA, lookupA, hne]
  | cons hd tl ih =>
      obtain ⟨k₀, v₀⟩ := hd
      by_cases h₀ : k₀ = k
      · subst h₀
        have hne : ¬k₀ = k' := fun hh => h hh.symm
        simp [updateA, lookupA, hne]
      · simp only [updateA, if_neg h₀]
        by_cases h₁ : k₀ = k' <;> simp [lookupA, h₁, ih]

theorem updateA_of_lookupA_some {β : Type} (m : List (String × β)) (k : String) (v : β)
    (h : lookupA m k = some v) : updateA m k v = m := by
  induction m with
  | nil => simp [lookupA] at h
  | cons hd tl ih =>
      obtain ⟨k₀, v₀⟩ := hd
      by_cases h₀ : k₀ = k
      · subst h₀
        simp [lookupA] at h
        simp [updateA, h]
      · simp [lookupA, h₀] at h
        simp [updateA, h₀, ih h]

theorem updateA_of_lookupA_none {β : Type} (m : List (String × β)) (k : String) (v : β)
    (h : lookupA m k = none) : updateA m k v = m ++ [(k, v)] := by
  induction m with
  | nil => simp [updateA]
  | cons hd tl ih =>
      obtain ⟨k₀, v₀⟩ := hd
      by_cases h₀ : k₀ = k
      · subst h₀; simp [lookupA] at h
      · simp [lookupA, h₀] at h
        simp [updateA, h₀, ih h]

theorem length_updateA_of_lookupA_some {β : Type} (m : List (String × β)) (k : String)
    (v w : β) (h : lookupA m k = some w) : (updateA m k v).length = m.length := by
  induction m with
  | nil => simp [lookupA] at h
  | cons hd tl ih =>
      obtain ⟨k₀, v₀⟩ := hd
      by_cases h₀ : k₀ = k
      · simp [updateA, h₀]
      · simp [lookupA, h₀] at h
        simp [updateA, h₀, ih h]

theorem map_fst_updateA_of_lookupA_some {β : Type} (m : List (String × β)) (k : String)
    (v w : β) (h : lookupA m k = some w) :
    (updateA m k v).map Prod.fst = m.map Prod.fst := by
  induction m with
  | nil => simp [lookupA] at h
  | cons hd tl ih =>
      obtain ⟨k₀, v₀⟩ := hd
      by_cases h₀ : k₀ = k
      · subst h₀; simp [updateA]
      · simp [lookupA, h₀] at h
        simp [updateA, h₀, ih h]

theorem lookupA_eq_none_iff {β : Type} (m : List (String × β)) (k : String) :
    lookupA m k = none ↔ k ∉ m.map Prod.fst := by
  induction m with
  | nil => simp [lookupA]
  | cons hd tl ih =>
      obtain ⟨k₀, v₀⟩ := hd
      by_cases h₀ : k₀ = k
      · subst h₀; simp [lookupA]
      · have hne : ¬k = k₀ := fun hh => h₀ hh.symm
        simp [lookupA, h₀, ih, hne]

theorem lookupA_isSome_iff {β : Type} (m : List (String × β)) (k : String) :
    (lookupA m k).isSome = true ↔ k ∈ m.map Prod.fst := by
  rw [← not_iff_not]
  simpa [Option.isSome_iff_ne_none] using lookupA_eq_none_iff m k

/-! ## Aggregator invariants -/

theorem sum3_processEvent (e : TestEvent) (s : AggState) :
    (processEvent e s).passed + (processEvent e s).failed + (processEvent e s).skipped =
      s.passed + s.failed + s.skipped + (if isTerminalEvent e then 1 else 0) := by
  by_cases ht : e.test = ""
  · simp [processEvent, ht, isTerminalEvent]
  · simp only [processEvent, if_neg ht]
    by_cases hp : e.action = StatusPass
    · simp only [isTerminalEvent, ht, hp]
      simp [StatusPass, StatusFail, StatusSkip, ht]
      omega
    · by_cases hf : e.action = StatusFail
      · simp only [isTerminalEvent, ht, hp, hf]
        simp [StatusPass, StatusFail, StatusSkip, ht]
        omega
      · by_cases hs : e.action = StatusSkip
        · simp only [isTerminalEvent, ht, hp, hf, hs]
          simp [StatusPass, StatusFail, StatusSkip, ht]
          omega
        · simp [isTerminalEvent, ht, hp, hf, hs]

theorem sum3_foldl (es : List TestEvent) : ∀ s : AggState,
    (es.foldl (fun s e => processEvent e s) s).passed +
      (es.foldl (fun s e => processEvent e s) s).failed +
      (es.foldl (fun s e => processEvent e s) s).skipped =
      s.passed + s.failed + s.skipped + es.countP isTerminalEvent := by
  induction es with
  | nil => intro s; simp
  | cons e es ih =>
      intro s
      rw [List.foldl_cons, ih, sum3_processEvent, List.countP_cons]
      split_ifs <;> omega

theorem total_testMap_processEvent (e : TestEvent) (s : AggState)
    (h : s.total = s.testMap.length) :
    (processEvent e s).total = (processEvent e s).testMap.length := by
  by_cases ht : e.test = ""
  · simpa [processEvent, ht] using h
  · simp only [processEvent, if_neg ht]
    cases hc : lookupA s.testMap (eventKey e) with
    | some r => simp [length_updateA_of_lookupA_some _ _ _ _ hc, hc, h]
    | none => simp [updateA_of_lookupA_none _ _ _ hc, hc, h]

theorem total_testMap_foldl (es : List TestEvent) : ∀ s : AggState,
    s.total = s.testMap.length →
    (es.foldl (fun s e => processEvent e s) s).total =
      (es.foldl (fun s e => processEvent e s) s).testMap.length := by
  induction es with
  | nil => intro s h; simpa using h
  | cons e es ih =>
      intro s h
      rw [List.foldl_cons]
      exact ih _ (total_testMap_processEvent e s h)

theorem mem_keys_processEvent (e : TestEvent) (s : AggState) (k : String) :
    k ∈ (processEvent e s).testMap.map Prod.fst ↔
      k ∈ s.testMap.map Prod.fst ∨ (e.test ≠ "" ∧ k = eventKey e) := by
  by_cases ht : e.test = ""
  · simp [processEvent, ht]
  · simp only [processEvent, if_neg ht]
    cases hc : lookupA s.testMap (eventKey e) with
    | some r =>
        rw [map_fst_updateA_of_lookupA_some _ _ _ _ hc]
        have hk : eventKey e ∈ s.testMap.map Prod.fst := by
          rw [← lookupA_isSome_iff]; simp [hc]
        constructor
        · exact Or.inl
        · rintro (h | ⟨-, rfl⟩)
          · exact h
          · exact hk
    | none =>
        rw [updateA_of_lookupA_none _ _ _ hc]
        simp [ht, eq_comm]

theorem keys_nodup_processEvent (e : TestEvent) (s : AggState)
    (h : (s.testMap.map Prod.fst).Nodup) :
    ((processEvent e s).testMap.map Prod.fst).Nodup := by
  by_cases ht : e.test = ""
  · simpa [processEvent, ht] using h
  · simp only [processEvent, if_neg ht]
    cases hc : lookupA s.testMap (eventKey e) with
    | some r => rw [map_fst_updateA_of_lookupA_some _ _ _ _ hc]; exact h
    | none =>
        rw [updateA_of_lookupA_none _ _ _ hc]
        have hk : eventKey e ∉ s.testMap.map Prod.fst := (lookupA_eq_none_iff _ _).mp hc
        simp [List.nodup_append, h, hk]

theorem keys_nodup_foldl (es : List TestEvent) : ∀ s : AggState,
    (s.testMap.map Prod.fst).Nodup →
    ((es.foldl (fun s e => processEvent e s) s).testMap.map Prod.fst).Nodup := by
  induction es with
  | nil => intro s h; simpa using h
  | cons e es ih =>
      intro s h
      rw [List.foldl_cons]
      exact ih _ (keys_nodup_processEvent e s h)

theorem keysList_cons (e : TestEvent) (es : List TestEvent) :
    keysList (e :: es) = if e.test = "" then keysList es else eventKey e :: keysList es := by
  by_cases ht : e.test = "" <;> simp [keysList, List.filter_cons, ht]

theorem mem_keys_foldl (es : List TestEvent) : ∀ (s : AggState) (k : String),
    k ∈ (es.foldl (fun s e => processEvent e s) s).testMap.map Prod.fst ↔
      k ∈ s.testMap.map Prod.fst ∨ k ∈ keysList es := by
  induction es with
  | nil => intro s k; simp [keysList]
  | cons e es ih =>
      intro s k
      rw [List.foldl_cons, ih, mem_keys_processEvent, keysList_cons]
      by_cases ht : e.test = ""
      · simp [ht]
      · simp only [if_neg ht, List.mem_cons]
        constructor
        · rintro ((h | ⟨-, rfl⟩) | h)
          · exact Or.inl h
          · exact Or.inr (Or.inl rfl)
          · exact Or.inr (Or.inr h)
        · rintro (h | rfl | h)
          · exact Or.inl (Or.inl h)
          · exact Or.inl (Or.inr ⟨ht, rfl⟩)
          · exact Or.inr h

theorem runAgg_keys_nodup (es : List TestEvent) :
    ((runAgg es).testMap.map Prod.fst).Nodup := by
  have := keys_nodup_foldl es initialState (by simp [initialState])
  simpa [runAgg] using this

theorem runAgg_mem_keys (es : List TestEvent) (k : String) :
    k ∈ (runAgg es).testMap.map Prod.fst ↔ k ∈ keysList es := by
  have := mem_keys_foldl es initialState k
  simpa [runAgg, initialState] using this

theorem runAgg_total (es : List TestEvent) :
    (runAgg es).total = (keysList es).toFinset.card := by
  have h1 : (runAgg es).total = (runAgg es).testMap.length :=
    total_testMap_foldl es initialState (by simp [initialState])
  have h2 : ((runAgg es).testMap.map Prod.fst).Nodup := runAgg_keys_nodup es
  have h3 : ((runAgg es).testMap.map Prod.fst).toFinset = (keysList es).toFinset := by
    apply Finset.ext
    intro a
    rw [List.mem_toFinset, List.mem_toFinset]
    exact runAgg_mem_keys es a
  calc (runAgg es).total = (runAgg es).testMap.length := h1
    _ = ((runAgg es).testMap.map Prod.fst).length := (List.length_map _ _).symm
    _ = ((runAgg es).testMap.map Prod.fst).toFinset.card :=
        (List.toFinset_card_of_nodup h2).symm
    _ = (keysList es).toFinset.card := by rw [h3]

/-! ## Output-line bookkeeping (per key) -/

theorem outputsAt_processEvent (e : TestEvent) (s : AggState) (k : String) :
    outputsAt (processEvent e s) k =
      outputsAt s k ++
        (if isOutputFor k e = true ∧ trimSpace e.output ≠ "" then [trimSpace e.output]
         else []) := by
  by_cases ht : e.test = ""
  · simp [processEvent, ht, isOutputFor, outputsAt]
  · simp only [processEvent, if_neg ht]
    by_cases hk : eventKey e = k
    · subst hk
      simp only [outputsAt, lookupA_updateA_self]
      cases hc : lookupA s.testMap (eventKey e) with
      | some r =>
          by_cases ha : e.action = StatusOutput
          · by_cases ho : trimSpace e.output = "" <;>
              simp [applyAction, ha, ho, hc, isOutputFor, ht]
          · have hout : (applyAction e r).output = r.output := by
              simp only [applyAction, if_neg ha]
              split_ifs <;> rfl
            simp [hout, hc, isOutputFor, ha]
      | none =>
          by_cases ha : e.action = StatusOutput
          · by_cases ho : trimSpace e.output = "" <;>
              simp [applyAction, ha, ho, hc, isOutputFor, ht, freshResult]
          · have hout : (applyAction e (freshResult e)).output = ([] : List String) := by
              simp only [applyAction, if_neg ha]
              split_ifs <;> rfl
            simp [hout, hc, isOutputFor, ha]
    · have hne : k ≠ eventKey e := fun hh => hk hh.symm
      rw [outputsAt, lookupA_updateA_ne _ _ _ _ hne]
      simp [outputsAt, isOutputFor, hk]

theorem outSpec_cons (k : String) (e : TestEvent) (es : List TestEvent) :
    outSpec k (e :: es) =
      (if isOutputFor k e = true ∧ trimSpace e.output ≠ "" then [trimSpace e.output]
       else []) ++ outSpec k es := by
  by_cases h1 : isOutputFor k e
  · by_cases h2 : trimSpace e.output = "" <;>
      simp [outSpec, List.filter_cons, h1, h2]
  · simp [outSpec, List.filter_cons, h1]

theorem outputsAt_foldl (es : List TestEvent) : ∀ (s : AggState) (k : String),
    outputsAt (es.foldl (fun s e => processEvent e s) s) k = outputsAt s k ++ outSpec k es := by
  induction es with
  | nil => intro s k; simp [outSpec]
  | cons e es ih =>
      intro s k
      rw [List.foldl_cons, ih, outputsAt_processEvent, outSpec_cons, List.append_assoc]

/-! ## Reporter: the grouping fold of `displayResults` -/

theorem addToPackage_total (p : PackageResults) (t : TestResult) :
    (addToPackage p t).total = p.total + 1 := by
  simp only [addToPackage]
  split_ifs <;> rfl

theorem addToPackage_failed (p : PackageResults) (t : TestResult) :
    (addToPackage p t).failed = p.failed + (if t.status = StatusFail then 1 else 0) := by
  simp only [addToPackage]
  split_ifs with h1 h2 <;> simp_all [StatusPass, StatusFail, StatusSkip]

theorem addToPackage_skipped (p : PackageResults) (t : TestResult) :
    (addToPackage p t).skipped = p.skipped + (if t.status = StatusSkip then 1 else 0) := by
  simp only [addToPackage]
  split_ifs with h1 h2 h3 <;> simp_all [StatusPass, StatusFail, StatusSkip]

theorem addToPackage_status (p : PackageResults) (t : TestResult) :
    (addToPackage p t).status =
      if t.status = StatusFail then StatusFail
      else if t.status = StatusSkip ∧ p.status = StatusPass ∧ p.skipped = p.total then StatusSkip
      else p.status := by
  simp only [addToPackage]
  by_cases h1 : t.status = StatusPass
  · have h2 : ¬t.status = StatusFail := by rw [h1]; decide
    have h3 : ¬t.status = StatusSkip := by rw [h1]; decide
    simp [h1, h2, h3, StatusPass, StatusFail, StatusSkip]
  · by_cases h2 : t.status = StatusFail
    · simp [h1, h2, StatusPass, StatusFail, StatusSkip]
    · by_cases h3 : t.status = StatusSkip
      · by_cases h4 : p.status = StatusPass ∧ p.skipped = p.total
        · rw [if_neg h1, if_neg h2, if_pos h3]
          rw [if_pos (by exact ⟨h4.1, by rw [h4.2]⟩)]
          rw [if_neg h2, if_pos ⟨h3, h4.1, h4.2⟩]
        · rw [if_neg h1, if_neg h2, if_pos h3]
          rw [if_neg (fun hc => h4 ⟨hc.1, Nat.succ_injective hc.2⟩)]
          rw [if_neg h2, if_neg (fun hc => h4 ⟨hc.2.1, hc.2.2⟩)]
      · simp [h1, h2, h3]

theorem foldl_addToPackage_failed (ts : List TestResult) : ∀ p : PackageResults,
    (ts.foldl addToPackage p).failed =
      p.failed + ts.countP (fun t => decide (t.status = StatusFail)) := by
  induction ts with
  | nil => intro p; simp
  | cons t ts ih =>
      intro p
      rw [List.foldl_cons, ih, addToPackage_failed, List.countP_cons]
      by_cases h : t.status = StatusFail
      · simp [h]
        omega
      · simp [h]

theorem anyFail_cons (t : TestResult) (ts : List TestResult) :
    anyFail (t :: ts) = (decide (t.status = StatusFail) || anyFail ts) := by
  simp [anyFail]

theorem foldl_addToPackage_status_fail (ts : List TestResult) : ∀ p : PackageResults,
    p.status = StatusFail → (ts.foldl addToPackage p).status = StatusFail := by
  induction ts with
  | nil => intro p h; simpa using h
  | cons t ts ih =>
      intro p h
      rw [List.foldl_cons]
      apply ih
      rw [addToPackage_status]
      split_ifs with h1 h2
      · rfl
      · rw [h] at h2
        exact absurd h2.2.1 (by decide)
      · exact h

theorem foldl_addToPackage_status_skip (ts : List TestResult) : ∀ p : PackageResults,
    p.status = StatusSkip →
    (ts.foldl addToPackage p).status = (if anyFail ts then StatusFail else StatusSkip) := by
  induction ts with
  | nil => intro p h; simpa [anyFail] using h
  | cons t ts ih =>
      intro p h
      rw [List.foldl_cons]
      by_cases hf : t.status = StatusFail
      · have hst : (addToPackage p t).status = StatusFail := by
          rw [addToPackage_status]; simp [hf]
        rw [foldl_addToPackage_status_fail ts _ hst]
        simp [anyFail_cons, hf]
      · have hst : (addToPackage p t).status = StatusSkip := by
          rw [addToPackage_status, if_neg hf,
            if_neg (fun hc => absurd (h.symm.trans hc.2.1) (by decide))]
          exact h
        rw [ih _ hst]
        simp [anyFail_cons, hf]

theorem foldl_addToPackage_status_pass (ts : List TestResult) : ∀ p : PackageResults,
    p.status = StatusPass → p.skipped ≤ p.total →
    (ts.foldl addToPackage p).status =
      (if anyFail ts then StatusFail
       else if p.skipped = p.total ∧ headIsSkip ts then StatusSkip
       else StatusPass) := by
  induction ts with
  | nil => intro p h hle; simpa [anyFail, headIsSkip] using h
  | cons t ts ih =>
      intro p h hle
      rw [List.foldl_cons]
      by_cases hf : t.status = StatusFail
      · have hst : (addToPackage p t).status = StatusFail := by
          rw [addToPackage_status]; simp [hf]
        rw [foldl_addToPackage_status_fail ts _ hst]
        simp [anyFail_cons, hf]
      · by_cases hs : t.status = StatusSkip
        · by_cases heq : p.skipped = p.total
          · have hst : (addToPackage p t).status = StatusSkip := by
              rw [addToPackage_status, if_neg hf, if_pos ⟨hs, h, heq⟩]
            rw [foldl_addToPackage_status_skip ts _ hst]
            simp [anyFail_cons, hf, headIsSkip, hs, heq, StatusSkip, StatusFail]
          · have hst : (addToPackage p t).status = StatusPass := by
              rw [addToPackage_status, if_neg hf, if_neg (fun hc => heq hc.2.2)]
              exact h
            have hsk : (addToPackage p t).skipped = p.skipped + 1 := by
              rw [addToPackage_skipped]; simp [hs]
            have htot : (addToPackage p t).total = p.total + 1 := addToPackage_total p t
            rw [ih _ hst (by rw [hsk, htot]; omega)]
            have hne : ¬((addToPackage p t).skipped = (addToPackage p t).total ∧
                headIsSkip ts = true) := by
              rw [hsk, htot]
              rintro ⟨hc, -⟩
              exact heq (Nat.succ_injective hc)
            rw [if_neg hne]
            simp [anyFail_cons, hf, headIsSkip, hs, heq, StatusSkip, StatusFail]
        · have hst : (addToPackage p t).status = StatusPass := by
            rw [addToPackage_status, if_neg hf, if_neg (fun hc => hs hc.1)]
            exact h
          have hsk : (addToPackage p t).skipped = p.skipped := by
            rw [addToPackage_skipped]; simp [hs]
          have htot : (addToPackage p t).total = p.total + 1 := addToPackage_total p t
          rw [ih _ hst (by rw [hsk, htot]; omega)]
          have hne : ¬((addToPackage p t).skipped = (addToPackage p t).total ∧
              headIsSkip ts = true) := by
            rw [hsk, htot]
            rintro ⟨hc, -⟩
            omega
          rw [if_neg hne]
          simp [anyFail_cons, hf, headIsSkip, hs]

theorem lookupA_groupStep (m : List (String × PackageResults)) (t : TestResult) (k : String) :
    lookupA (groupStep m t) k =
      if k = t.pkg then some (addToPackage ((lookupA m t.pkg).getD (freshPackage t.pkg)) t)
      else lookupA m k := by
  by_cases hk : k = t.pkg
  · subst hk; simp [groupStep, lookupA_updateA_self]
  · simp [groupStep, lookupA_updateA_ne _ _ _ _ hk, hk]

theorem lookupA_foldl_groupStep (rs : List TestResult) :
    ∀ (m : List (String × PackageResults)) (k : String),
    lookupA (rs.foldl groupStep m) k =
      contAgg (lookupA m k) k (rs.filter (fun t => decide (t.pkg = k))) := by
  induction rs with
  | nil =>
      intro m k
      cases h : lookupA m k <;> simp [contAgg, h]
  | cons t rs ih =>
      intro m k
      rw [List.foldl_cons, ih, lookupA_groupStep]
      by_cases hk : k = t.pkg
      · subst hk
        rw [if_pos rfl]
        have hfil : (t :: rs).filter (fun t' => decide (t'.pkg = t.pkg)) =
            t :: rs.filter (fun t' => decide (t'.pkg = t.pkg)) := by
          simp [List.filter_cons]
        rw [hfil]
        cases h : lookupA m t.pkg <;> simp [contAgg, h]
      · rw [if_neg hk]
        have hne : ¬t.pkg = k := fun hh => hk hh.symm
        have hfil : (t :: rs).filter (fun t' => decide (t'.pkg = k)) =
            rs.filter (fun t' => decide (t'.pkg = k)) := by
          simp [List.filter_cons, hne]
        rw [hfil]

theorem lookupA_groupByPackage (rs : List TestResult) (k : String) :
    lookupA (groupByPackage rs) k =
      contAgg none k (rs.filter (fun t => decide (t.pkg = k))) := by
  have h := lookupA_foldl_groupStep rs [] k
  simpa [groupByPackage, lookupA] using h

theorem lookupA_groupByPackage_eq_none_iff (rs : List TestResult) (k : String) :
    lookupA (groupByPackage rs) k = none ↔ ¬∃ t ∈ rs, t.pkg = k := by
  rw [lookupA_groupByPackage]
  cases hfil : rs.filter (fun t => decide (t.pkg = k)) with
  | nil =>
      simp only [contAgg]
      rw [List.filter_eq_nil_iff] at hfil
      simpa using hfil
  | cons t ts =>
      simp only [contAgg]
      constructor
      · intro h; exact absurd h (by simp)
      · intro h
        exfalso
        have ht : t ∈ rs.filter (fun t => decide (t.pkg = k)) := by rw [hfil]; simp
        rw [List.mem_filter] at ht
        exact h ⟨t, ht.1, by simpa using ht.2⟩

theorem keys_nodup_groupStep (m : List (String × PackageResults)) (t : TestResult)
    (h : (m.map Prod.fst).Nodup) : ((groupStep m t).map Prod.fst).Nodup := by
  unfold groupStep
  cases hc : lookupA m t.pkg with
  | some p => rw [map_fst_updateA_of_lookupA_some _ _ _ _ hc]; exact h
  | none =>
      rw [updateA_of_lookupA_none _ _ _ hc]
      have hk : t.pkg ∉ m.map Prod.fst := (lookupA_eq_none_iff _ _).mp hc
      simp [List.nodup_append, h, hk]

theorem groupByPackage_keys_nodup (rs : List TestResult) :
    ((groupByPackage rs).map Prod.fst).Nodup := by
  suffices h : ∀ m : List (String × PackageResults), (m.map Prod.fst).Nodup →
      ((rs.foldl groupStep m).map Prod.fst).Nodup by
    exact h [] (by simp)
  induction rs with
  | nil => intro m h; simpa using h
  | cons t rs ih =>
      intro m h
      rw [List.foldl_cons]
      exact ih _ (keys_nodup_groupStep m t h)

/-! ## Reporter: the `sort.Slice` comparator of `displayPackageBlock` -/

theorem testLess_eq_false_iff (a b : TestResult) :
    (testLess b a = false) ↔
      (statusOrder a.status < statusOrder b.status ∨
        (statusOrder a.status = statusOrder b.status ∧
          stripTest a.name ≤ stripTest b.name)) := by
  unfold testLess
  by_cases h : statusOrder b.status ≠ statusOrder a.status
  · rw [if_pos h]
    simp only [decide_eq_false_iff_not, not_lt]
    constructor
    · intro hle
      exact Or.inl (lt_of_le_of_ne hle (fun hh => h hh.symm))
    · rintro (hlt | ⟨heq, -⟩)
      · exact le_of_lt hlt
      · exact (h heq.symm).elim
  · rw [if_neg h]
    push_neg at h
    simp only [decide_eq_false_iff_not, not_lt]
    constructor
    · intro hle
      exact Or.inr ⟨h.symm, hle⟩
    · rintro (hlt | ⟨-, hle⟩)
      · exact absurd (h ▸ hlt) (lt_irrefl _)
      · exact hle

instance : DecidableRel (fun a b : TestResult => testLess b a = false) :=
  fun _ _ => inferInstanceAs (Decidable _)

instance : IsTotal TestResult (fun a b => testLess b a = false) where
  total a b := by
    rw [testLess_eq_false_iff, testLess_eq_false_iff]
    rcases lt_trichotomy (statusOrder a.status) (statusOrder b.status) with h | h | h
    · exact Or.inl (Or.inl h)
    · rcases le_total (stripTest a.name) (stripTest b.name) with hn | hn
      · exact Or.inl (Or.inr ⟨h, hn⟩)
      · exact Or.inr (Or.inr ⟨h.symm, hn⟩)
    · exact Or.inr (Or.inl h)

instance : IsTrans TestResult (fun a b => testLess b a = false) where
  trans a b c hab hbc := by
    rw [testLess_eq_false_iff] at hab hbc ⊢
    rcases hab with h1 | ⟨h1, h1'⟩ <;> rcases hbc with h2 | ⟨h2, h2'⟩
    · exact Or.inl (h1.trans h2)
    · exact Or.inl (lt_of_lt_of_eq h1 h2)
    · exact Or.inl (lt_of_eq_of_lt h1 h2)
    · exact Or.inr ⟨h1.trans h2, le_trans h1' h2'⟩

/-! ## Claim C2 -/

/-- Claim C2 as frozen is false on the code: `processEvent` increments a
run counter on every terminal event but `Total` only on key creation, so a
second `pass` event for the same key (which the spec treats as an
idempotent overwrite) makes `passed + failed + skipped` exceed `total`. -/
theorem claim_C2_counterexample :
    ¬((runAgg esDupTerminal).passed + (runAgg esDupTerminal).failed +
        (runAgg esDupTerminal).skipped ≤ (runAgg esDupTerminal).total) := by decide

/-- Claim C2 (corrected): for every event stream in which each `(scope,name)`
key receives at most one terminal event — the keys of the terminal events
are pairwise distinct — the run-level counters satisfy
`passed + failed + skipped ≤ total` at all times, i.e. after aggregating
every prefix of the stream. -/
theorem claim_C2_amended (es : List TestEvent) (n : Nat)
    (h : ((es.filter isTerminalEvent).map eventKey).Nodup) :
    (runAgg (es.take n)).passed + (runAgg (es.take n)).failed +
      (runAgg (es.take n)).skipped ≤ (runAgg (es.take n)).total := by
  have hsub : List.Sublist (((es.take n).filter isTerminalEvent).map eventKey)
      ((es.filter isTerminalEvent).map eventKey) :=
    ((List.take_sublist n es).filter _).map _
  have hnd : (((es.take n).filter isTerminalEvent).map eventKey).Nodup := h.sublist hsub
  have hsum : (runAgg (es.take n)).passed + (runAgg (es.take n)).failed +
      (runAgg (es.take n)).skipped = (es.take n).countP isTerminalEvent := by
    have h0 := sum3_foldl (es.take n) initialState
    simpa [runAgg, initialState] using h0
  have htot : (runAgg (es.take n)).total = (keysList (es.take n)).toFinset.card :=
    runAgg_total (es.take n)
  rw [hsum, htot, List.countP_eq_length_filter]
  have hlen : ((es.take n).filter isTerminalEvent).length =
      (((es.take n).filter isTerminalEvent).map eventKey).length := (List.length_map _ _).symm
  rw [hlen, ← List.toFinset_card_of_nodup hnd]
  apply Finset.card_le_card
  intro x hx
  rw [List.mem_toFinset] at hx ⊢
  rw [List.mem_map] at hx
  obtain ⟨e, he, rfl⟩ := hx
  rw [List.mem_filter] at he
  have htest : e.test ≠ "" := by
    have h1 := he.2
    simp only [isTerminalEvent, Bool.and_eq_true, decide_eq_true_eq] at h1
    exact h1.1
  exact List.mem_map.mpr ⟨e, List.mem_filter.mpr ⟨he.1, by simpa using htest⟩, rfl⟩

/-- Witness for C2 (corrected) on a well-formed three-event stream. -/
theorem claim_C2_amended_witness :
    (runAgg (esWellFormed.take 2)).passed + (runAgg (esWellFormed.take 2)).failed +
      (runAgg (esWellFormed.take 2)).skipped ≤ (runAgg (esWellFormed.take 2)).total :=
  claim_C2_amended esWellFormed 2 (by decide)

/-! ## Claim C3 -/

/-- Claim C3 as frozen is false on the code: the aggregator keys tests by
the concatenated string `Package + "/" + Test`, so the distinct pairs
`("p", "a/b")` and `("p/a", "b")` collide on the key `p/a/b` and yield one
`TestResult` and `total = 1`, where the claim demands two distinct
`TestResult`s and `total = 2`. -/
theorem claim_C3_counterexample :
    (evSlashOne.pkg, evSlashOne.test) ≠ (evSlashTwo.pkg, evSlashTwo.test) ∧
    (runAgg [evSlashOne, evSlashTwo]).total = 1 ∧
    (runAgg [evSlashOne, evSlashTwo]).testMap.length = 1 := by decide

/-- Claim C3 (corrected): uniqueness and counting hold for the concatenated
key string `Package + "/" + Test` rather than for the pair: the aggregated
map holds at most one `TestResult` per key string, and `total` equals the
number of distinct key strings observed among events with non-empty test
name. -/
theorem claim_C3_amended (es : List TestEvent) :
    ((runAgg es).testMap.map Prod.fst).Nodup ∧
    (runAgg es).total = (keysList es).toFinset.card :=
  ⟨runAgg_keys_nodup es, runAgg_total es⟩

/-! ## Claim C6 -/

/-- Claim C6 (confirmed): `runTests` returns the aggregated summary exactly
when the command ran and exited with code 0 (`Wait` returned nil) or with
the "tests failed" code 1; pipe-creation failure, start failure, any other
exit code, and any other execution error all return an error and discard
the summary. -/
theorem claim_C6 (es : List TestEvent) (code : Int) (h : code ≠ 1) :
    runTests (.completed es .waitOk) = .ok (runAgg es) ∧
    runTests (.completed es (.waitExit 1)) = .ok (runAgg es) ∧
    runTests (.completed es (.waitExit code)) =
      .error "command exited with non-zero status" ∧
    runTests (.completed es .waitOther) = .error "command execution failed" ∧
    runTests .stdoutPipeFail = .error "failed to create stdout pipe" ∧
    runTests .stderrPipeFail = .error "failed to create stderr pipe" ∧
    runTests .startFail = .error "failed to start command" := by
  refine ⟨rfl, by simp [runTests], by simp [runTests, h], rfl, rfl, rfl, rfl⟩

/-- Witness for C6 at exit code 2 and at exit code 0. -/
theorem claim_C6_witness :
    runTests (.completed [] (.waitExit 2)) =
      .error "command exited with non-zero status" ∧
    runTests (.completed [] .waitOk) = .ok (runAgg []) := by
  have h := claim_C6 [] 2 (by decide)
  exact ⟨h.2.2.1, h.1⟩

/-! ## Claim C7 -/

/-- Claim C7 as frozen is false on the code: `processEvent` stores
`strings.TrimSpace(event.Output)`, not the original `Output` text, so the
single kept line for the event ` boom ` is `boom`, whereas the claim (the
original texts with whitespace-only lines excluded) predicts ` boom `. -/
theorem claim_C7_counterexample :
    outputsAt (runAgg [evOutputPadded]) (eventKey evOutputPadded) = ["boom"] ∧
    evOutputPadded.output = " boom " ∧
    [" boom "].filter (fun l => decide (trimSpace l ≠ "")) = [" boom "] ∧
    (["boom"] : List String) ≠ [" boom "] := by decide

/-- Claim C7 (corrected): for every key and every event stream, the
recorded output lines are exactly the *trimmed* `Output` texts of that
key's `output` events, in arrival order, with lines that are empty after
trimming excluded. -/
theorem claim_C7_amended (es : List TestEvent) (k : String) :
    outputsAt (runAgg es) k = outSpec k es := by
  have h := outputsAt_foldl es initialState k
  simpa [runAgg, outputsAt, initialState, lookupA] using h

/-! ## Claim C9 -/

/-- Claim C9 as frozen is false on the code: `processEvent` runs its
find-or-create step before inspecting the action, so an event with the
unknown action `bogus` and a fresh non-empty test name creates a Running
`TestResult` and increments `total`. -/
theorem claim_C9_counterexample :
    evBogus.action ∉ knownActions ∧
    processEvent evBogus initialState ≠ initialState ∧
    (processEvent evBogus initialState).total = 1 := by decide

/-- Claim C9 (corrected): an event with an unknown action is a no-op when
its test name is empty or its key already exists; when the key is new (and
the test name non-empty) its only effect is to create the Running
`TestResult` and increment `total` — the status/duration/output of every
test and the passed/failed/skipped counters never change. -/
theorem claim_C9_amended (s : AggState) (e : TestEvent) (h : e.action ∉ knownActions) :
    (e.test = "" → processEvent e s = s) ∧
    (∀ r, lookupA s.testMap (eventKey e) = some r → processEvent e s = s) ∧
    (e.test ≠ "" → lookupA s.testMap (eventKey e) = none →
      processEvent e s =
        { s with testMap := s.testMap ++ [(eventKey e, freshResult e)]
                 total := s.total + 1 }) := by
  simp only [knownActions, List.mem_cons, List.not_mem_nil, or_false, not_or] at h
  obtain ⟨h1, h2, h3, h4, h5⟩ := h
  refine ⟨?_, ?_, ?_⟩
  · intro ht
    simp [processEvent, ht]
  · intro r hr
    by_cases ht : e.test = ""
    · simp [processEvent, ht]
    · have happ : applyAction e r = r := by
        simp [applyAction, h5, h2, h3, h4]
      simp only [processEvent, if_neg ht, hr]
      simp [happ, updateA_of_lookupA_some _ _ _ hr, h2, h3, h4]
  · intro ht hn
    have happ : applyAction e (freshResult e) = freshResult e := by
      simp [applyAction, h5, h2, h3, h4]
    simp only [processEvent, if_neg ht, hn]
    simp [happ, updateA_of_lookupA_none _ _ _ hn, h2, h3, h4]

/-- Witness for C9 (corrected): the `bogus` event on the empty model. -/
theorem claim_C9_amended_witness :
    processEvent evBogus initialState =
      { initialState with
          testMap := initialState.testMap ++ [(eventKey evBogus, freshResult evBogus)]
          total := initialState.total + 1 } :=
  (claim_C9_amended initialState evBogus (by decide)).2.2 (by decide) (by decide)

/-! ## Claim C10 -/

/-- Claim C10 (confirmed): for an individual-test event, a `run` event for
an existing key leaves the whole model unchanged; an `output` event leaves
passed/failed/skipped and every other key unchanged and, for an existing
key, only appends at most one (trimmed, non-empty) line to that test's
output, preserving its status and duration; in particular a test holding a
terminal status keeps it under `run` and `output` events. -/
theorem claim_C10 (s : AggState) (e : TestEvent) (ht : e.test ≠ "") :
    (e.action = StatusRun → ∀ r, lookupA s.testMap (eventKey e) = some r →
      processEvent e s = s) ∧
    (e.action = StatusOutput →
      (processEvent e s).passed = s.passed ∧
      (processEvent e s).failed = s.failed ∧
      (processEvent e s).skipped = s.skipped ∧
      (∀ k, k ≠ eventKey e →
        lookupA (processEvent e s).testMap k = lookupA s.testMap k) ∧
      (∀ r, lookupA s.testMap (eventKey e) = some r →
        (processEvent e s).total = s.total ∧
        lookupA (processEvent e s).testMap (eventKey e) =
          some { r with output :=
            r.output ++ (if trimSpace e.output ≠ "" then [trimSpace e.output] else []) })) ∧
    (∀ r, lookupA s.testMap (eventKey e) = some r →
      (e.action = StatusRun ∨ e.action = StatusOutput) →
      ∃ r2, lookupA (processEvent e s).testMap (eventKey e) = some r2 ∧
        r2.status = r.status ∧ r2.duration = r.duration) := by
  refine ⟨?_, ?_, ?_⟩
  · intro ha r hr
    have happ : applyAction e r = r := by
      simp [applyAction, ha, StatusRun, StatusOutput, StatusPass, StatusFail, StatusSkip]
    simp only [processEvent, if_neg ht, hr]
    simp [happ, updateA_of_lookupA_some _ _ _ hr, ha,
      StatusRun, StatusPass, StatusFail, StatusSkip]
  · intro ha
    have hpass : ¬e.action = StatusPass := by rw [ha]; decide
    have hfail : ¬e.action = StatusFail := by rw [ha]; decide
    have hskip : ¬e.action = StatusSkip := by rw [ha]; decide
    refine ⟨?_, ?_, ?_, ?_, ?_⟩
    · simp [processEvent, ht, hpass]
    · simp [processEvent, ht, hfail]
    · simp [processEvent, ht, hskip]
    · intro k hk
      simp only [processEvent, if_neg ht]
      exact lookupA_updateA_ne _ _ _ _ hk
    · intro r hr
      constructor
      · simp [processEvent, ht, hr]
      · simp only [processEvent, if_neg ht, hr, Option.getD_some]
        rw [lookupA_updateA_self]
        by_cases ho : trimSpace e.output = ""
        · simp [applyAction, ha, ho]
        · simp [applyAction, ha, ho]
  · intro r hr hor
    rcases hor with ha | ha
    · have happ : applyAction e r = r := by
        simp [applyAction, ha, StatusRun, StatusOutput, StatusPass, StatusFail, StatusSkip]
      refine ⟨r, ?_, rfl, rfl⟩
      simp only [processEvent, if_neg ht, hr, Option.getD_some]
      rw [happ, lookupA_updateA_self]
    · have hstat : (applyAction e r).status = r.status := by
        simp only [applyAction, if_pos ha]
        split_ifs <;> rfl
      have hdur : (applyAction e r).duration = r.duration := by
        simp only [applyAction, if_pos ha]
        split_ifs <;> rfl
      refine ⟨applyAction e r, ?_, hstat, hdur⟩
      simp only [processEvent, if_neg ht, hr, Option.getD_some]
      rw [lookupA_updateA_self]

/-- Witness for C10: an `output` event applied to a model already holding
its key leaves the three terminal counters unchanged. -/
theorem claim_C10_witness :
    (processEvent evOutT (runAgg [evRunT])).passed = (runAgg [evRunT]).passed ∧
    (processEvent evOutT (runAgg [evRunT])).failed = (runAgg [evRunT]).failed ∧
    (processEvent evOutT (runAgg [evRunT])).skipped = (runAgg [evRunT]).skipped := by
  have h := claim_C10 (runAgg [evRunT]) evOutT (by decide)
  exact ⟨(h.2.1 rfl).1, (h.2.1 rfl).2.1, (h.2.1 rfl).2.2.1⟩

/-! ## Claim C1 -/

/-- Claim C1 as frozen is false on the code: the derived scope status is
order-dependent. Grouping the flat sequence `[TestA skipped, TestB passed]`
yields a scope with `failed = 0` and `skipped = 1 ≠ 2 = total`, for which
the claimed invariant demands status Passed, yet the incremental check in
`displayResults` (which tests `Skipped == Total` at each skip event)
derives status Skipped. -/
theorem claim_C1_counterexample :
    lookupA (groupByPackage rsMixed) "p" = some pMixed ∧
    pMixed.failed = 0 ∧ pMixed.skipped ≠ pMixed.total ∧
    pMixed.status = StatusSkip ∧ pMixed.status ≠ StatusPass := by decide

/-- Claim C1 (corrected): the derived status of every scope the Reporter
builds is Failed exactly when `failed > 0`; otherwise it is Skipped exactly
when the *first* test of that scope in the flat input sequence is skipped
(in particular all-skipped scopes are Skipped under every order, but mixed
scopes depend on the order); otherwise it is Passed. -/
theorem claim_C1_amended (rs : List TestResult) (k : String) (p : PackageResults)
    (h : lookupA (groupByPackage rs) k = some p) :
    p.status =
      if 0 < p.failed then StatusFail
      else if headIsSkip (rs.filter (fun t => decide (t.pkg = k))) then StatusSkip
      else StatusPass := by
  rw [lookupA_groupByPackage] at h
  have hp : p = (rs.filter (fun t => decide (t.pkg = k))).foldl addToPackage
      (freshPackage k) := by
    cases hc : rs.filter (fun t => decide (t.pkg = k)) with
    | nil => rw [hc] at h; simp [contAgg] at h
    | cons t ts =>
        rw [hc] at h
        simp only [contAgg, Option.getD_none] at h
        exact (Option.some_injective _ h).symm
  have hfail : p.failed =
      (rs.filter (fun t => decide (t.pkg = k))).countP
        (fun t => decide (t.status = StatusFail)) := by
    rw [hp, foldl_addToPackage_failed]
    simp [freshPackage]
  have hstat : p.status =
      (if anyFail (rs.filter (fun t => decide (t.pkg = k))) then StatusFail
       else if (freshPackage k).skipped = (freshPackage k).total ∧
           headIsSkip (rs.filter (fun t => decide (t.pkg = k))) then StatusSkip
       else StatusPass) := by
    rw [hp]
    exact foldl_addToPackage_status_pass _ (freshPackage k) rfl (le_refl 0)
  have hiff : anyFail (rs.filter (fun t => decide (t.pkg = k))) = true ↔ 0 < p.failed := by
    rw [hfail]
    simp only [anyFail, List.any_eq_true, List.countP_pos_iff, decide_eq_true_eq]
  rw [hstat]
  by_cases hfp : 0 < p.failed
  · rw [if_pos hfp, if_pos (hiff.mpr hfp)]
  · rw [if_neg hfp, if_neg (fun hh => hfp (hiff.mp hh))]
    simp [freshPackage]

/-- Witness for C1 (corrected) on the mixed skip-then-pass scope. -/
theorem claim_C1_amended_witness :
    pMixed.status =
      if 0 < pMixed.failed then StatusFail
      else if headIsSkip (rsMixed.filter (fun t => decide (t.pkg = "p"))) then StatusSkip
      else StatusPass :=
  claim_C1_amended rsMixed "p" pMixed (by decide)

/-! ## Claim C4 -/

/-- Claim C4 as frozen is false on the code: the `sort.Slice` comparator
`return orderI < orderJ` sorts the status priorities *ascending*, so a
Passed test (priority 1) is placed before a Failed test (priority 3),
whereas the claim demands Failed tests first. -/
theorem claim_C4_counterexample :
    sortTests [tFailB, tPassA] = [tPassA, tFailB] ∧
    tPassA.status = StatusPass ∧ tFailB.status = StatusFail ∧
    statusOrder tPassA.status < statusOrder tFailB.status := by decide

/-- Claim C4 (corrected): within each scope block the tests are a
permutation of the input sorted by status priority *ascending* — Running(0)
first, then Passed(1), Skipped(2), and Failed(3) last — with ties broken by
test name ascending, names compared after stripping the cosmetic "Test"
prefix (that part of the claim holds as stated). -/
theorem claim_C4_amended (ts : List TestResult) :
    (sortTests ts).Perm ts ∧
    (sortTests ts).Sorted (fun a b =>
      statusOrder a.status < statusOrder b.status ∨
        (statusOrder a.status = statusOrder b.status ∧
          stripTest a.name ≤ stripTest b.name)) := by
  constructor
  · exact List.perm_insertionSort _ ts
  · have h := List.sorted_insertionSort (fun a b : TestResult => testLess b a = false) ts
    exact List.Pairwise.imp (fun hab => (testLess_eq_false_iff _ _).mp hab) h

/-! ## Claim C5 -/

/-- Claim C5 as frozen is false on the code: `displayResults` appends the
overall summary block unconditionally, so a run whose tests all belong to
the single scope `p` still renders the overall block. -/
theorem claim_C5_counterexample :
    rsSingleScope.map TestResult.pkg = ["p"] ∧
    displayBlocks rsSingleScope = [Block.group "p", Block.overall] ∧
    Block.overall ∈ displayBlocks rsSingleScope := by decide

/-- Claim C5 (corrected): for every finished summary the Reporter emits
exactly one group block per scope that occurs in the results plus exactly
one overall summary block — the overall block is never omitted, also for
single-scope runs. -/
theorem claim_C5_amended (rs : List TestResult) :
    (displayBlocks rs).count Block.overall = 1 ∧
    ∀ k, (displayBlocks rs).count (Block.group k) =
      (if ∃ t ∈ rs, t.pkg = k then 1 else 0) := by
  constructor
  · rw [displayBlocks, List.count_append]
    have h0 : ((List.insertionSort (fun a b : String => a ≤ b)
        ((groupByPackage rs).map Prod.fst)).map Block.group).count Block.overall = 0 := by
      rw [List.count_eq_zero]
      simp
    rw [h0]
    simp
  · intro k
    rw [displayBlocks, List.count_append]
    have h1 : ([Block.overall] : List Block).count (Block.group k) = 0 := by simp
    have h2 : ((List.insertionSort (fun a b : String => a ≤ b)
        ((groupByPackage rs).map Prod.fst)).map Block.group).count (Block.group k) =
        (List.insertionSort (fun a b : String => a ≤ b)
          ((groupByPackage rs).map Prod.fst)).count k :=
      List.count_map_of_injective _ _ (fun a b hab => by injection hab) k
    have h3 : (List.insertionSort (fun a b : String => a ≤ b)
        ((groupByPackage rs).map Prod.fst)).count k =
        ((groupByPackage rs).map Prod.fst).count k :=
      (List.perm_insertionSort _ _).count_eq k
    have h4 : ((groupByPackage rs).map Prod.fst).count k =
        (if k ∈ (groupByPackage rs).map Prod.fst then 1 else 0) := by
      by_cases hm : k ∈ (groupByPackage rs).map Prod.fst
      · rw [if_pos hm]
        exact List.count_eq_one_of_mem (groupByPackage_keys_nodup rs) hm
      · rw [if_neg hm]
        exact List.count_eq_zero_of_not_mem hm
    have h5 : k ∈ (groupByPackage rs).map Prod.fst ↔ ∃ t ∈ rs, t.pkg = k := by
      rw [← not_iff_not, ← lookupA_eq_none_iff]
      exact lookupA_groupByPackage_eq_none_iff rs k
    rw [h1, h2, h3, h4]
    by_cases hm : ∃ t ∈ rs, t.pkg = k
    · rw [if_pos hm, if_pos (h5.mpr hm)]
    · rw [if_neg hm, if_neg (fun hh => hm (h5.mp hh))]

/-! ## Claim C8 -/

/-- Claim C8 as frozen is false on the code: `generateTestRows` consults no
verbosity flag and suppresses no marker lines — a failed test's output rows
are attached unconditionally, including a line that is a pure framework
delimiter (`--- FAIL: ...`). -/
theorem claim_C8_counterexample :
    generateTestRows [tFailDelim] =
      [Row.testRow StatusFail "X" 0, Row.outputRow "--- FAIL: TestX (0.00s)"] ∧
    Row.outputRow "--- FAIL: TestX (0.00s)" ∈ generateTestRows [tFailDelim] := by decide

/-- Claim C8 (corrected): in the render rows, an output row with text `l`
appears exactly when some test has status Failed, `l` among its recorded
output lines, and `l` not whitespace-only — so Failed tests' output is
attached unconditionally (no verbosity flag is consulted), non-Failed tests
get no output rows, whitespace-only lines are always suppressed, and no
delimiter-marker suppression exists. -/
theorem claim_C8_amended (ts : List TestResult) (l : String) :
    Row.outputRow l ∈ generateTestRows ts ↔
      ∃ r ∈ ts, r.status = StatusFail ∧ l ∈ r.output ∧ trimSpace l ≠ "" := by
  simp only [generateTestRows, List.mem_flatMap]
  constructor
  · rintro ⟨r, hr, hmem⟩
    refine ⟨r, hr, ?_⟩
    simp only [rowsFor, List.mem_cons] at hmem
    rcases hmem with hcase | hcase
    · exact absurd hcase (by simp)
    · by_cases hc : r.status = StatusFail ∧ 0 < r.output.length
      · rw [if_pos hc] at hcase
        rw [List.mem_map] at hcase
        obtain ⟨a, ha, hal⟩ := hcase
        have haa : a = l := by injection hal
        subst haa
        rw [List.mem_filter] at ha
        exact ⟨hc.1, ha.1, by simpa using ha.2⟩
      · rw [if_neg hc] at hcase
        simp at hcase
  · rintro ⟨r, hr, hfailed, hmem, hblank⟩
    refine ⟨r, hr, ?_⟩
    have hlen : 0 < r.output.length := List.length_pos.mpr (List.ne_nil_of_mem hmem)
    simp only [rowsFor, List.mem_cons]
    right
    rw [if_pos ⟨hfailed, hlen⟩, List.mem_map]
    exact ⟨l, List.mem_filter.mpr ⟨hmem, by simpa using hblank⟩, rfl⟩

end Prism
